import Mathlib

set_option maxRecDepth 16384
set_option maxHeartbeats 1000000

/-!
Verification development for the RedisJSON module (`src/lib.rs`,
`src/formatter.rs`).  The definitions below are a shallow embedding of the
Rust source: pure functions become Lean functions, `&mut` borrows become
explicit state passing, `Result` becomes an explicit outcome type, and a
Rust panic is a distinguished outcome constructor.  Machine integers are
modelled as `Int`/`Nat` with explicit wrapping where the Rust code can
overflow (release-mode semantics: `usize`/`i64` arithmetic wraps, and a
`Vec` operation asked for an absurd length aborts, which we also record as
a panic outcome).

Repository code that is referenced by `src/lib.rs` but whose file is not
part of the sources under review (`array_index.rs`, `redisjson.rs`,
`error.rs`) is modelled from the specification; such definitions carry a
doc comment beginning with `Modelled from the spec:`.  The external
`serde_json` dependency (JSON parsing, the `Number` type) is modelled from
its documented behaviour.
-/

namespace RedisJSONModel

/-! ## Exact rational numbers

A small exact-fraction type in place of Mathlib's `ℚ`: every operation
below is plain structural recursion on `Int`/`Nat`, so concrete values
compute inside the kernel (`Rat`'s normalization is well-founded
recursion, which does not).  Fractions are kept normalized (positive
denominator, coprime) by the smart constructor, so structural equality is
value equality. -/

/-- Euclid's algorithm with explicit fuel; the first argument strictly
decreases, so fuel `a + 1` always suffices. -/
def gcdF : ℕ → ℕ → ℕ → ℕ
  | 0, _, b => b
  | _ + 1, 0, b => b
  | fuel + 1, a + 1, b => gcdF fuel (b % (a + 1)) (a + 1)

def natGcd (a b : ℕ) : ℕ := gcdF (a + 1) a b

structure Frac where
  num : ℤ
  den : ℕ
deriving DecidableEq

/-- Normalizing constructor: divide by the gcd (denominator `0` is mapped
to the zero fraction; it never arises). -/
def Frac.norm (n : ℤ) (d : ℕ) : Frac :=
  if d = 0 then ⟨0, 1⟩
  else
    let g : ℕ := natGcd n.natAbs d
    ⟨n / (g : ℤ), d / g⟩

def Frac.ofInt (n : ℤ) : Frac := ⟨n, 1⟩

def Frac.add (a b : Frac) : Frac :=
  Frac.norm (a.num * (b.den : ℤ) + b.num * (a.den : ℤ)) (a.den * b.den)

def Frac.mul (a b : Frac) : Frac :=
  Frac.norm (a.num * b.num) (a.den * b.den)

def Frac.neg (a : Frac) : Frac := ⟨-a.num, a.den⟩

/-- Strict comparison by cross-multiplication (denominators are
positive). -/
def Frac.blt (a b : Frac) : Bool := a.num * (b.den : ℤ) < b.num * (a.den : ℤ)

/-- Binary exponentiation with fuel (logarithmic recursion depth, so that
large concrete powers reduce without deep recursion); fuel `64` covers
every exponent below `2^64`. -/
def ipowF : ℕ → ℤ → ℕ → ℤ
  | 0, _, _ => 1
  | fuel + 1, b, e =>
      if e = 0 then 1
      else
        let h := ipowF fuel (b * b) (e / 2)
        if e % 2 = 1 then b * h else h

def ipow (b : ℤ) (e : ℕ) : ℤ := ipowF 64 b e

/-- `10 ^ e` for a signed exponent. -/
def Frac.pow10 (e : ℤ) : Frac :=
  if 0 ≤ e then ⟨ipow 10 e.toNat, 1⟩ else ⟨1, (ipow 10 (-e).toNat).toNat⟩

/-! ## IEEE-754 double model

`serde_json` numbers may hold an `f64`.  We model a double as an exact
fraction together with the non-finite specials.  Arithmetic is exact
fraction arithmetic followed by an overflow check against the largest
finite double; real doubles also round to 53 bits of precision, which this
model omits — every claim below is evaluated far away from rounding
boundaries, where the exact and the rounded computation agree on
finiteness and on integer values. -/
inductive F64 where
  | fin (q : Frac)
  | inf
  | negInf
  | nan
deriving DecidableEq

/-- Largest finite `f64`: `(2^53 - 1) * 2^971`. -/
def maxF64 : Frac := ⟨(ipow 2 53 - 1) * ipow 2 971, 1⟩

def F64.isFinite : F64 → Bool
  | .fin _ => true
  | _ => false

/-- Clamp an exact fraction into the double range: overflow becomes the
appropriately signed infinity, as in IEEE-754 arithmetic. -/
def F64.ofFrac (q : Frac) : F64 :=
  if maxF64.blt q then .inf
  else if q.blt maxF64.neg then .negInf
  else .fin q

/-- `f64` addition (exact-fraction model; overflow to infinity). -/
def F64.add : F64 → F64 → F64
  | .nan, _ => .nan
  | _, .nan => .nan
  | .inf, .negInf => .nan
  | .negInf, .inf => .nan
  | .inf, _ => .inf
  | _, .inf => .inf
  | .negInf, _ => .negInf
  | _, .negInf => .negInf
  | .fin a, .fin b => F64.ofFrac (a.add b)

/-- `f64` multiplication (exact-fraction model; overflow to infinity). -/
def F64.mul : F64 → F64 → F64
  | .nan, _ => .nan
  | _, .nan => .nan
  | .inf, .inf => .inf
  | .inf, .negInf => .negInf
  | .negInf, .inf => .negInf
  | .negInf, .negInf => .inf
  | .inf, .fin b => if b.num = 0 then .nan else if 0 < b.num then .inf else .negInf
  | .fin a, .inf => if a.num = 0 then .nan else if 0 < a.num then .inf else .negInf
  | .negInf, .fin b => if b.num = 0 then .nan else if 0 < b.num then .negInf else .inf
  | .fin a, .negInf => if a.num = 0 then .nan else if 0 < a.num then .negInf else .inf
  | .fin a, .fin b => F64.ofFrac (a.mul b)

/-! ## serde_json `Number` and `Value`

`serde_json::Number` stores either a non-negative integer (`u64`), a
negative integer (`i64`), or a double.  `serde_json::Value` is the JSON
tree; RedisJSON builds it with insertion-ordered objects, so objects are
association lists here.  Arrays and objects are their own inductives
(instead of nested `List`s) so that structural mutual recursion and
induction are available. -/
inductive JNumber where
  | posInt (n : ℕ)
  | negInt (i : ℤ)
  | float (f : F64)
deriving DecidableEq

mutual
inductive JValue where
  | null
  | bool (b : Bool)
  | num (n : JNumber)
  | str (s : String)
  | arr (xs : JList)
  | obj (xs : JObj)
deriving DecidableEq

inductive JList where
  | nil
  | cons (hd : JValue) (tl : JList)
deriving DecidableEq

inductive JObj where
  | nil
  | cons (k : String) (v : JValue) (tl : JObj)
deriving DecidableEq
end

/-- `Number::as_i64`: a stored `u64` qualifies only when it fits `i64`;
stored negative integers always qualify; doubles never do. -/
def JNumber.asI64 : JNumber → Option ℤ
  | .posInt n => if (n : ℤ) ≤ 2 ^ 63 - 1 then some (n : ℤ) else none
  | .negInt i => some i
  | .float _ => none

/-- `Number::as_f64`: always succeeds (integers widen; exact in this
model, rounded in real `f64` — immaterial for the claims evaluated). -/
def JNumber.asF64 : JNumber → F64
  | .posInt n => .fin (Frac.ofInt (n : ℤ))
  | .negInt i => .fin (Frac.ofInt i)
  | .float f => f

/-- `Number::from_f64`: defined only for finite doubles. -/
def JNumber.fromF64 : F64 → Option JNumber
  | .fin q => some (.float (.fin q))
  | _ => none

/-- `i64 -> Number` conversion (`.into()`): negative values are stored as
negative integers, the rest as non-negative integers. -/
def i64ToNumber (x : ℤ) : JNumber :=
  if x < 0 then .negInt x else .posInt x.toNat

/-! ## Errors and outcomes

`error.rs` is not among the sources; there an `Error` is just a message
string.  Modelled from the spec: the error taxonomy distinguishes the
syntactically distinct construction sites in `lib.rs` (`err_json`
type-mismatch messages, propagated `serde_json` parse failures, the
array-insert bounds message, the string-append literal message, and the
adapter-level errors), each of which produces a distinct message string in
the source. -/
inductive Error where
  | typeMismatch (expected found : String)
  | jsonParse
  | indexOutOfBounds
  | literalNotString
  | pathNotFound
  | rootCreate
  | wrongFormat
  | argMissing
deriving DecidableEq

/-- Is this one of the `err_json`-constructed type-mismatch errors? -/
def Error.isTypeMismatch : Error → Bool
  | .typeMismatch _ _ => true
  | _ => false

/-- Outcome of a fallible Rust computation: a value, an `Err`, or a panic
(`unwrap` on `None`, arithmetic overflow check, absurd `Vec` length). -/
inductive Outcome where
  | ok (v : JValue)
  | err (e : Error)
  | panicked
deriving DecidableEq

/-- `RedisJSON::value_name` (from `redisjson.rs`, not under the reviewed
sources).  Modelled from the spec: the kind name reported in
`TypeMismatch{expected, found}` messages. -/
def valueName : JValue → String
  | .null => "null"
  | .bool _ => "boolean"
  | .num _ => "number"
  | .str _ => "string"
  | .arr _ => "array"
  | .obj _ => "object"

/-- `err_json(value, expected)` from `lib.rs`: builds the
"wrong type of path value - expected .. but found .." error. -/
def errJson (v : JValue) (expected : String) : Error :=
  .typeMismatch expected (valueName v)

/-! ## Basic operations on `JList` (mirroring `Vec`) -/

namespace JList

def length : JList → ℕ
  | .nil => 0
  | .cons _ tl => tl.length + 1

def get? : JList → ℕ → Option JValue
  | .nil, _ => none
  | .cons hd _, 0 => some hd
  | .cons _ tl, n + 1 => tl.get? n

def getD (l : JList) (n : ℕ) : JValue :=
  (l.get? n).getD .null

def append : JList → JList → JList
  | .nil, ys => ys
  | .cons hd tl, ys => .cons hd (tl.append ys)

def take : JList → ℕ → JList
  | _, 0 => .nil
  | .nil, _ => .nil
  | .cons hd tl, n + 1 => .cons hd (tl.take n)

def drop : JList → ℕ → JList
  | l, 0 => l
  | .nil, _ => .nil
  | .cons _ tl, n + 1 => tl.drop n

/-- `Vec::remove(i)` (the index is in bounds at every call site). -/
def eraseIdx : JList → ℕ → JList
  | .nil, _ => .nil
  | .cons _ tl, 0 => tl
  | .cons hd tl, n + 1 => .cons hd (tl.eraseIdx n)

def replicateNull : ℕ → JList
  | 0 => .nil
  | n + 1 => .cons .null (replicateNull n)

/-- `Vec::resize(n, Value::Null)`: truncate or pad with nulls. -/
def resize (l : JList) (n : ℕ) : JList :=
  if n ≤ l.length then l.take n else l.append (replicateNull (n - l.length))

/-- `slice::rotate_left(k)` for `k ≤ length` (panics otherwise; the panic
is handled at the call site model). -/
def rotateLeft (l : JList) (k : ℕ) : JList :=
  (l.drop k).append (l.take k)

def ofList : List JValue → JList
  | [] => .nil
  | x :: xs => .cons x (ofList xs)

/-- Update the element at an index, if present. -/
def modify : JList → ℕ → (JValue → JValue) → JList
  | .nil, _, _ => .nil
  | .cons hd tl, 0, f => .cons (f hd) tl
  | .cons hd tl, n + 1, f => .cons hd (tl.modify n f)

end JList

namespace JObj

def find? : JObj → String → Option JValue
  | .nil, _ => none
  | .cons k v tl, key => if k = key then some v else tl.find? key

def modifyAt : JObj → String → (JValue → JValue) → JObj
  | .nil, _, _ => .nil
  | .cons k v tl, key, f =>
      if k = key then .cons k (f v) tl else .cons k v (tl.modifyAt key f)

end JObj

/-! ## JSON text parsing (`serde_json::from_str`)

`serde_json` is an external dependency of `lib.rs`; the parser below is
modelled from its documented behaviour on `serde_json::Value`:
whitespace-insensitive JSON, strict number grammar (no leading zeros, a
fraction/exponent must have digits), integers that fit `u64`/`i64` stay
integers, `-0` and everything with a fraction or exponent becomes a
double, a literal whose double value overflows the finite range is a
parse error (`NumberOutOfRange`), integers overflowing 64 bits fall back
to the double representation, control characters inside strings must be
escaped, and trailing non-whitespace input is rejected.  Escaped
surrogate pairs and duplicate object keys are not modelled (no claim
exercises them). -/

/-- The left-brace character, `\x7b`. -/
def lbraceCh : Char := Char.ofNat 123

/-- The right-brace character, `\x7d`. -/
def rbraceCh : Char := Char.ofNat 125

def isDigitCh (c : Char) : Bool := 48 ≤ c.toNat ∧ c.toNat ≤ 57

def skipWs : List Char → List Char
  | [] => []
  | c :: rest =>
      if c = ' ' ∨ c = '\t' ∨ c = '\n' ∨ c = '\r' then skipWs rest else c :: rest

def takeDigits : List Char → List Char × List Char
  | [] => ([], [])
  | c :: rest =>
      if isDigitCh c then
        let p := takeDigits rest
        (c :: p.1, p.2)
      else ([], c :: rest)

def digitsToNat (ds : List Char) : ℕ :=
  ds.foldl (fun n c => n * 10 + (c.toNat - 48)) 0

def hexVal (c : Char) : Option ℕ :=
  if 48 ≤ c.toNat ∧ c.toNat ≤ 57 then some (c.toNat - 48)
  else if 97 ≤ c.toNat ∧ c.toNat ≤ 102 then some (c.toNat - 87)
  else if 65 ≤ c.toNat ∧ c.toNat ≤ 70 then some (c.toNat - 55)
  else none

/-- Parse the optional fraction part: `.` must be followed by at least one
digit. -/
def parseFrac : List Char → Except Error (List Char × List Char)
  | '.' :: r =>
      let p := takeDigits r
      if p.1 = [] then .error .jsonParse else .ok p
  | r => .ok ([], r)

/-- Parse the optional exponent part. -/
def parseExp (cs : List Char) : Except Error (Option ℤ × List Char) :=
  match cs with
  | c :: r =>
      if c = 'e' ∨ c = 'E' then
        match r with
        | '-' :: r2 =>
            let p := takeDigits r2
            if p.1 = [] then .error .jsonParse
            else .ok (some (-(digitsToNat p.1 : ℤ)), p.2)
        | '+' :: r2 =>
            let p := takeDigits r2
            if p.1 = [] then .error .jsonParse
            else .ok (some ((digitsToNat p.1 : ℤ)), p.2)
        | r2 =>
            let p := takeDigits r2
            if p.1 = [] then .error .jsonParse
            else .ok (some ((digitsToNat p.1 : ℤ)), p.2)
      else .ok (none, cs)
  | [] => .ok (none, [])

/-- Assemble a double-valued number from sign, integer digits, fraction
digits and exponent; values beyond the finite double range are a parse
error, as in `serde_json`. -/
def mkFloatNumber (neg : Bool) (ip fr : List Char) (exp : Option ℤ) :
    Except Error JNumber :=
  let mant : ℕ := digitsToNat (ip ++ fr)
  let e : ℤ := exp.getD 0 - fr.length
  let q : Frac := (Frac.ofInt (if neg then -(mant : ℤ) else (mant : ℤ))).mul
    (Frac.pow10 e)
  if maxF64.blt q ∨ q.blt maxF64.neg then .error .jsonParse
  else .ok (.float (.fin q))

/-- Classify a parsed numeric literal the way `serde_json` stores it. -/
def mkNumber (neg : Bool) (ip fr : List Char) (exp : Option ℤ) :
    Except Error JNumber :=
  if fr = [] ∧ exp = none then
    let n := digitsToNat ip
    if neg then
      if n = 0 then .ok (.float (.fin (Frac.ofInt 0)))
      else if (n : ℤ) ≤ 2 ^ 63 then .ok (.negInt (-(n : ℤ)))
      else mkFloatNumber neg ip fr exp
    else
      if n < 2 ^ 64 then .ok (.posInt n) else mkFloatNumber neg ip fr exp
  else mkFloatNumber neg ip fr exp

/-- Parse a number starting at its first digit (the sign has already been
consumed). -/
def parseNumberTail (neg : Bool) (cs : List Char) :
    Except Error (JNumber × List Char) :=
  let p := takeDigits cs
  if p.1 = [] then .error .jsonParse
  else if p.1.length > 1 ∧ p.1.headD '0' = '0' then .error .jsonParse
  else
    match parseFrac p.2 with
    | .error e => .error e
    | .ok (fr, r2) =>
        match parseExp r2 with
        | .error e => .error e
        | .ok (exp, r3) =>
            match mkNumber neg p.1 fr exp with
            | .error e => .error e
            | .ok n => .ok (n, r3)

/-- Parse the body of a string literal (the opening quote has been
consumed); `acc` holds the decoded characters in reverse. -/
def parseStringBody : ℕ → List Char → List Char → Except Error (String × List Char)
  | 0, _, _ => .error .jsonParse
  | fuel + 1, acc, cs =>
      match cs with
      | [] => .error .jsonParse
      | '"' :: rest => .ok (String.mk acc.reverse, rest)
      | '\\' :: rest =>
          match rest with
          | 'u' :: a :: b :: c :: d :: rest2 =>
              match hexVal a, hexVal b, hexVal c, hexVal d with
              | some ha, some hb, some hc, some hd =>
                  let n := ((ha * 16 + hb) * 16 + hc) * 16 + hd
                  if n < 0xd800 ∨ 0xe000 ≤ n then
                    parseStringBody fuel (Char.ofNat n :: acc) rest2
                  else .error .jsonParse
              | _, _, _, _ => .error .jsonParse
          | e :: rest2 =>
              if e = '"' ∨ e = '\\' ∨ e = '/' then
                parseStringBody fuel (e :: acc) rest2
              else if e = 'b' then parseStringBody fuel (Char.ofNat 8 :: acc) rest2
              else if e = 'f' then parseStringBody fuel (Char.ofNat 12 :: acc) rest2
              else if e = 'n' then parseStringBody fuel ('\n' :: acc) rest2
              else if e = 'r' then parseStringBody fuel ('\r' :: acc) rest2
              else if e = 't' then parseStringBody fuel ('\t' :: acc) rest2
              else .error .jsonParse
          | [] => .error .jsonParse
      | c :: rest =>
          if c.toNat < 32 then .error .jsonParse
          else parseStringBody fuel (c :: acc) rest

/-- Result alternatives of the recursive-descent core: a complete value,
the items of an array body, or the members of an object body. -/
inductive ParseOut where
  | val (v : JValue)
  | arrItems (xs : JList)
  | objItems (xs : JObj)

/-- Which production the recursive-descent core is parsing.  The three
mutually recursive productions are folded into one function over this tag
so that the recursion is structural in the fuel (and hence computable by
the kernel). -/
inductive ParseKind where
  | value
  | arrItems
  | objItems

def parseCore : ℕ → ParseKind → List Char → Except Error (ParseOut × List Char)
  | 0, _, _ => .error .jsonParse
  | fuel + 1, .value, cs =>
      match cs with
      | [] => .error .jsonParse
      | 'n' :: 'u' :: 'l' :: 'l' :: rest => .ok (.val .null, rest)
      | 't' :: 'r' :: 'u' :: 'e' :: rest => .ok (.val (.bool true), rest)
      | 'f' :: 'a' :: 'l' :: 's' :: 'e' :: rest => .ok (.val (.bool false), rest)
      | '"' :: rest =>
          match parseStringBody fuel [] rest with
          | .error e => .error e
          | .ok (s, r) => .ok (.val (.str s), r)
      | '-' :: rest =>
          match parseNumberTail true rest with
          | .error e => .error e
          | .ok (n, r) => .ok (.val (.num n), r)
      | '[' :: rest =>
          match skipWs rest with
          | ']' :: r2 => .ok (.val (.arr .nil), r2)
          | r2 =>
              match parseCore fuel .arrItems r2 with
              | .error e => .error e
              | .ok (.arrItems xs, r) => .ok (.val (.arr xs), r)
              | .ok (_, _) => .error .jsonParse
      | c :: rest =>
          if isDigitCh c then
            match parseNumberTail false (c :: rest) with
            | .error e => .error e
            | .ok (n, r) => .ok (.val (.num n), r)
          else if c = lbraceCh then
            match skipWs rest with
            | d :: r2 =>
                if d = rbraceCh then .ok (.val (.obj .nil), r2)
                else
                  match parseCore fuel .objItems (d :: r2) with
                  | .error e => .error e
                  | .ok (.objItems xs, r) => .ok (.val (.obj xs), r)
                  | .ok (_, _) => .error .jsonParse
            | [] => .error .jsonParse
          else .error .jsonParse
  | fuel + 1, .arrItems, cs =>
      match parseCore fuel .value (skipWs cs) with
      | .error e => .error e
      | .ok (.val v, r) =>
          match skipWs r with
          | ',' :: r2 =>
              match parseCore fuel .arrItems r2 with
              | .error e => .error e
              | .ok (.arrItems tl, rest) => .ok (.arrItems (.cons v tl), rest)
              | .ok (_, _) => .error .jsonParse
          | ']' :: r2 => .ok (.arrItems (.cons v .nil), r2)
          | _ => .error .jsonParse
      | .ok (_, _) => .error .jsonParse
  | fuel + 1, .objItems, cs =>
      match skipWs cs with
      | '"' :: r =>
          match parseStringBody fuel [] r with
          | .error e => .error e
          | .ok (k, r1) =>
              match skipWs r1 with
              | ':' :: r2 =>
                  match parseCore fuel .value (skipWs r2) with
                  | .error e => .error e
                  | .ok (.val v, r3) =>
                      match skipWs r3 with
                      | ',' :: r4 =>
                          match parseCore fuel .objItems r4 with
                          | .error e => .error e
                          | .ok (.objItems tl, rest) =>
                              .ok (.objItems (.cons k v tl), rest)
                          | .ok (_, _) => .error .jsonParse
                      | d :: r4 =>
                          if d = rbraceCh then .ok (.objItems (.cons k v .nil), r4)
                          else .error .jsonParse
                      | [] => .error .jsonParse
                  | .ok (_, _) => .error .jsonParse
              | _ => .error .jsonParse
      | _ => .error .jsonParse

def parseValue (fuel : ℕ) (cs : List Char) :
    Except Error (JValue × List Char) :=
  match parseCore fuel .value cs with
  | .error e => .error e
  | .ok (.val v, r) => .ok (v, r)
  | .ok (_, _) => .error .jsonParse

/-- `serde_json::from_str::<Value>`: parse a complete JSON document,
allowing surrounding whitespace and rejecting trailing input. -/
def jsonFromStr (s : String) : Except Error JValue :=
  match parseValue (2 * s.data.length + 8) (skipWs s.data) with
  | .error e => .error e
  | .ok (v, rest) => if (skipWs rest).isEmpty then .ok v else .error .jsonParse

/-- `iter.map(serde_json::from_str).collect::<Result<Vec<_>, _>>()`:
parse every argument, stopping at the first failure. -/
def parseAll : List String → Except Error (List JValue)
  | [] => .ok []
  | s :: rest =>
      match jsonFromStr s with
      | .error e => .error e
      | .ok v =>
          match parseAll rest with
          | .error e => .error e
          | .ok vs => .ok (v :: vs)

/-! ## `backwards_compat_path` (`lib.rs`, lines 94–105) -/

/-- Rust's `str::starts_with(c)` for a single `char` pattern: does the
first character equal `c`?  (Defined on the character list so that it
reduces in the kernel.) -/
def startsWithChar (s : String) (c : Char) : Bool :=
  match s.data with
  | [] => false
  | a :: _ => a = c

/-- The RedisJSON 1.x legacy path rewrite: paths already anchored at `$`
are unchanged; the bare root `.` becomes `$`; a leading `.` gets `$`
prepended; anything else gets `$.` prepended. -/
def backwardsCompatPath (path : String) : String :=
  if startsWithChar path '$' then path
  else if path = "." then "$"
  else if startsWithChar path '.' then "$" ++ path
  else "$." ++ path

/-- C6: the legacy-path rewrite is a pure string transform that is the
identity on any path already beginning with `$`, maps the exact string
`.` to `$`, prepends `$` to any other path beginning with `.`, and
prepends `$.` to every remaining path, including the empty string. -/
theorem c6_backwards_compat_path (p : String) :
    (startsWithChar p '$' = true → backwardsCompatPath p = p) ∧
    (p = "." → backwardsCompatPath p = "$") ∧
    (startsWithChar p '$' = false → p ≠ "." → startsWithChar p '.' = true →
      backwardsCompatPath p = "$" ++ p) ∧
    (startsWithChar p '$' = false → startsWithChar p '.' = false →
      backwardsCompatPath p = "$." ++ p) ∧
    backwardsCompatPath "" = "$." := by
  refine ⟨?_, ?_, ?_, ?_, by decide⟩
  · intro h
    simp [backwardsCompatPath, h]
  · intro h
    subst h
    decide
  · intro h1 h2 h3
    simp [backwardsCompatPath, h1, h2, h3]
  · intro h1 h3
    have h2 : p ≠ "." := by
      intro h
      subst h
      simp [startsWithChar] at h3
    simp [backwardsCompatPath, h1, h2, h3]

/-- Witness for C6: concrete inputs exercising all four branches. -/
theorem c6_witness :
    backwardsCompatPath "$.a" = "$.a" ∧ backwardsCompatPath "." = "$" ∧
    backwardsCompatPath ".a" = "$.a" ∧ backwardsCompatPath "a" = "$.a" := by
  refine ⟨(c6_backwards_compat_path "$.a").1 (by decide),
          (c6_backwards_compat_path ".").2.1 rfl,
          (c6_backwards_compat_path ".a").2.2.1 (by decide) (by decide) (by decide),
          (c6_backwards_compat_path "a").2.2.2.1 (by decide) (by decide)⟩

deriving instance DecidableEq for Except

/-! ## The mutating transforms of `lib.rs`

Each Rust transform receives the located value by reference.  A `&Value`
transform cannot change the document, so it returns an `Outcome` only; a
`&mut Value` transform is a function `JValue → JValue × Outcome` whose
first component is the borrowed value after the call (the `take`-and-
replace discipline leaves `Null` behind once the value has been taken
out). -/

/-- `do_json_num_op` (`lib.rs`, lines 395–424), generic in the integer
and floating-point operators exactly as the Rust function is.  Returns
`panicked` where the Rust code hits `Number::from_f64(..).unwrap()` on a
non-finite result. -/
def doJsonNumOp (opI : ℤ → ℤ → ℤ) (opF : F64 → F64 → F64)
    (inValue : String) (currValue : JValue) : Outcome :=
  match currValue with
  | .num curr =>
      match jsonFromStr inValue with
      | .error e => .err e
      | .ok (.num inN) =>
          match curr.asI64, inN.asI64 with
          | some num1, some num2 => .ok (.num (i64ToNumber (opI num1 num2)))
          | _, _ =>
              match JNumber.fromF64 (opF curr.asF64 inN.asF64) with
              | some res => .ok (.num res)
              | none => .panicked
      | .ok other => .err (errJson other "number")
  | _ => .err (errJson currValue "number")

/-- The `op_i64` closure of `json_num_incrby` (`|i1, i2| i1 + i2`),
with release-mode `i64` wrapping. -/
def i64AddOp (a b : ℤ) : ℤ := (a + b + 2 ^ 63) % 2 ^ 64 - 2 ^ 63

/-- The `op_i64` closure of `json_num_multby` (`|i1, i2| i1 * i2`),
with release-mode `i64` wrapping. -/
def i64MulOp (a b : ℤ) : ℤ := (a * b + 2 ^ 63) % 2 ^ 64 - 2 ^ 63

/-- `do_json_str_append` (`lib.rs`, lines 480–493): the target must hold
a string and the literal must parse to a JSON string; the result is the
concatenation. -/
def doJsonStrAppend (json : String) (value : JValue) : Outcome :=
  match value with
  | .str curr =>
      match jsonFromStr json with
      | .error e => .err e
      | .ok (.str s) => .ok (.str (curr ++ s))
      | .ok _ => .err .literalNotString
  | _ => .err (errJson value "string")

/-- The toggle transform of `json_bool_toggle` (`lib.rs`, lines 338–347):
the target must hold a boolean; the result is `curr ^ true`. -/
def doJsonToggle (value : JValue) : Outcome :=
  match value with
  | .bool curr => .ok (.bool (xor curr true))
  | _ => .err (errJson value "boolean")

/-- `do_json_arr_append` (`lib.rs`, lines 532–547): the array check and
the parsing of every item happen before `value.take()`. -/
def doJsonArrAppend (args : List String) (value : JValue) : JValue × Outcome :=
  match value with
  | .arr a =>
      match parseAll args with
      | .error e => (.arr a, .err e)
      | .ok items => (.null, .ok (.arr (a.append (JList.ofList items))))
  | _ => (value, .err (errJson value "array"))

/-- The sign adjustment of `do_json_arr_insert`:
`if index < 0 { len + index } else { index }`. -/
def insertIndex (index len : ℤ) : ℤ := if index < 0 then len + index else index

/-- `do_json_arr_insert` (`lib.rs`, lines 612–635): the bounds check on
the (sign-adjusted) index and the parsing of every item happen before
`value.take()`; the items are spliced in at the index. -/
def doJsonArrInsert (args : List String) (index : ℤ) (value : JValue) :
    JValue × Outcome :=
  match value with
  | .arr a =>
      let len : ℤ := (a.length : ℤ)
      let idx : ℤ := insertIndex index len
      if ¬(0 ≤ idx ∧ idx ≤ len) then (.arr a, .err .indexOutOfBounds)
      else
        match parseAll args with
        | .error e => (.arr a, .err e)
        | .ok items =>
            (.null, .ok (.arr ((a.take idx.toNat).append
              ((JList.ofList items).append (a.drop idx.toNat)))))
  | _ => (value, .err (errJson value "array"))

/-- The inline index clamp of `do_json_arr_pop`: a negative index maps to
`max(0, len + index)`, a non-negative one to `min(index, len - 1)`. -/
def popIndex (index : ℤ) (len : ℕ) : ℕ :=
  (if index < 0 then max 0 ((len : ℤ) + index)
   else min index ((len : ℤ) - 1)).toNat

/-- `do_json_arr_pop` (`lib.rs`, lines 690–712).  The Rust function also
writes the removed element into the captured `res : &mut Option<Value>`;
that side payload is the first component here, the borrowed value after
the call the second, and the returned `Result` the third. -/
def doJsonArrPop (index : ℤ) (value : JValue) :
    Option JValue × JValue × Outcome :=
  match value with
  | .arr a =>
      if a.length = 0 then (none, .arr a, .ok (.arr a))
      else
        let pos : ℕ := popIndex index a.length
        (some (a.getD pos), .null, .ok (.arr (a.eraseIdx pos)))
  | _ => (none, value, .err (errJson value "array"))

/-! ## Array index normalization and trim -/

/-- Modelled from the spec: `ArrayIndex::normalize` for `i64` from
`array_index.rs`, which is referenced by `do_json_arr_trim` but is not
among the reviewed sources.  Spec §4.2: a negative `i` maps to
`max(0, len+i)`; a non-negative `i` is clamped with `min` — of the
spec's two readings (`len-1` or `len`) this takes `min(i, len-1)`, the
one its Pop rule states outright and the one the inline normalization in
`do_json_arr_pop` uses.  The result is a `usize`, so the `i64` value is
cast with two's-complement wrapping (`min i (len-1)` is only negative
when `len = 0`). -/
def normalize (i : ℤ) (len : ℤ) : ℕ :=
  if i < 0 then (max 0 (len + i)).toNat
  else ((min i (len - 1)) % 2 ^ 64).toNat

/-- The `usize → i64` cast (`stop as i64` in `do_json_arr_trim`),
two's-complement. -/
def usizeToI64 (n : ℕ) : ℤ :=
  if (n : ℤ) < 2 ^ 63 then (n : ℤ) else (n : ℤ) - 2 ^ 64

/-- `do_json_arr_trim` (`lib.rs`, lines 750–770).  The guard for an empty
result range compares the raw `start` against `len` and against the
normalized `stop`; otherwise the kept range is
`start.normalize(len) .. stop + 1`.  After `value.take()` the code runs
`rotate_left(range.start)` (panics when the index exceeds the length) and
`resize(range.end - range.start, Null)`; with release-mode `usize`
arithmetic the subtraction wraps when `range.end < range.start` and the
absurd resize length aborts, recorded here as `panicked` (a debug build
panics on the subtraction itself). -/
def doJsonArrTrim (start stop : ℤ) (value : JValue) : JValue × Outcome :=
  match value with
  | .arr a =>
      let len : ℤ := (a.length : ℤ)
      let stopN : ℕ := normalize stop len
      let range : ℕ × ℕ :=
        if start > len ∨ start > usizeToI64 stopN then (0, 0)
        else (normalize start len, (stopN + 1) % 2 ^ 64)
      if a.length < range.1 then (.null, .panicked)
      else if range.2 < range.1 then (.null, .panicked)
      else (.null, .ok (.arr ((a.rotateLeft range.1).resize (range.2 - range.1))))
  | _ => (value, .err (errJson value "array"))

/-! ## The generic mutation protocol (`value_op`)

Modelled from the spec: `RedisJSON::value_op` lives in `redisjson.rs`,
which is not among the reviewed sources.  Spec §4.4: resolve the path to
a location, apply the transform to a take-style extraction of the current
value, splice the result back on success, and leave the document alone on
failure — the borrowed value as the transform left it is what remains at
the location (the replace step is the only mutation point).  The path
evaluator is likewise outside the sources, so a location is passed
directly as a key/index chain. -/

inductive Step where
  | key (k : String)
  | idx (i : ℕ)
deriving DecidableEq

def getAt : JValue → List Step → Option JValue
  | doc, [] => some doc
  | .arr xs, .idx i :: rest => (xs.get? i).bind (fun x => getAt x rest)
  | .obj xs, .key k :: rest => (xs.find? k).bind (fun x => getAt x rest)
  | _, _ => none

def setAt : JValue → List Step → JValue → JValue
  | _, [], nv => nv
  | .arr xs, .idx i :: rest, nv => .arr (xs.modify i (fun x => setAt x rest nv))
  | .obj xs, .key k :: rest, nv => .obj (xs.modifyAt k (fun x => setAt x rest nv))
  | doc, _ :: _, _ => doc

/-- Modelled from the spec: the locate–transform–commit primitive
(§4.4), with the resolved location passed in and the client-side
`project` step omitted (it never touches the document).  Returns the
document after the call together with the transform's outcome. -/
def valueOp (doc : JValue) (loc : List Step)
    (transform : JValue → JValue × Outcome) : JValue × Outcome :=
  match getAt doc loc with
  | none => (doc, .err .pathNotFound)
  | some v =>
      match transform v with
      | (_, .ok nv) => (setAt doc loc nv, .ok nv)
      | (v', .err e) => (setAt doc loc v', .err e)
      | (v', .panicked) => (setAt doc loc v', .panicked)

/-- Lift a `&Value` (read-only) transform into the protocol shape. -/
def readOnly (t : JValue → Outcome) : JValue → JValue × Outcome :=
  fun v => (v, t v)

/-- A transform never mutates its borrow when it returns an error. -/
def ErrPreserving (t : JValue → JValue × Outcome) : Prop :=
  ∀ v v' e, t v = (v', .err e) → v' = v

/-! ## Helper lemmas about the mutation protocol -/

theorem JList.modify_id_of_get? :
    ∀ (xs : JList) (i : ℕ) (f : JValue → JValue) (x : JValue),
      xs.get? i = some x → f x = x → xs.modify i f = xs
  | .nil, i, _, _, hg, _ => by simp [JList.get?] at hg
  | .cons hd tl, 0, f, x, hg, hf => by
      simp [JList.get?] at hg
      subst hg
      simp [JList.modify, hf]
  | .cons hd tl, n + 1, f, x, hg, hf => by
      simp only [JList.get?] at hg
      simp only [JList.modify, JList.cons.injEq, true_and]
      exact JList.modify_id_of_get? tl n f x hg hf

theorem JObj.modifyAt_id_of_find? :
    ∀ (xs : JObj) (k : String) (f : JValue → JValue) (x : JValue),
      xs.find? k = some x → f x = x → xs.modifyAt k f = xs
  | .nil, _, _, _, hg, _ => by simp [JObj.find?] at hg
  | .cons k' v tl, k, f, x, hg, hf => by
      by_cases hk : k' = k
      · simp [JObj.find?, hk] at hg
        subst hg
        simp [JObj.modifyAt, hk, hf]
      · simp only [JObj.find?, if_neg hk] at hg
        simp only [JObj.modifyAt, if_neg hk, JObj.cons.injEq, true_and]
        exact JObj.modifyAt_id_of_find? tl k f x hg hf

/-- Splicing back the value that was found at a location leaves the
document unchanged. -/
theorem setAt_getAt :
    ∀ (loc : List Step) (doc v : JValue), getAt doc loc = some v →
      setAt doc loc v = doc
  | [], doc, v, h => by
      simp [getAt] at h
      subst h
      simp [setAt]
  | .idx i :: rest, doc, v, h => by
      cases doc with
      | arr xs =>
          simp only [getAt, Option.bind_eq_some] at h
          obtain ⟨x, hg, hx⟩ := h
          simp only [setAt, JValue.arr.injEq]
          exact JList.modify_id_of_get? xs i _ x hg (setAt_getAt rest x v hx)
      | null => simp [getAt] at h
      | bool b => simp [getAt] at h
      | num n => simp [getAt] at h
      | str s => simp [getAt] at h
      | obj xs => simp [getAt] at h
  | .key k :: rest, doc, v, h => by
      cases doc with
      | obj xs =>
          simp only [getAt, Option.bind_eq_some] at h
          obtain ⟨x, hg, hx⟩ := h
          simp only [setAt, JValue.obj.injEq]
          exact JObj.modifyAt_id_of_find? xs k _ x hg (setAt_getAt rest x v hx)
      | null => simp [getAt] at h
      | bool b => simp [getAt] at h
      | num n => simp [getAt] at h
      | str s => simp [getAt] at h
      | arr xs => simp [getAt] at h

/-- If the transform preserves its borrow on error, a failing `value_op`
leaves the document exactly as it was. -/
theorem valueOp_err_eq (doc : JValue) (loc : List Step)
    (t : JValue → JValue × Outcome) (res : JValue) (e : Error)
    (hp : ErrPreserving t) (h : valueOp doc loc t = (res, .err e)) :
    res = doc := by
  unfold valueOp at h
  split at h
  · exact (Prod.mk.injEq _ _ _ _ ▸ h).1.symm
  · rename_i v hg
    split at h
    · simp at h
    · rename_i v' e' heq
      simp only [Prod.mk.injEq] at h
      rw [← h.1, hp v v' e' heq]
      exact setAt_getAt loc doc v hg
    · simp at h

theorem errPreserving_readOnly (t : JValue → Outcome) :
    ErrPreserving (readOnly t) := by
  intro v v' e h
  simp only [readOnly, Prod.mk.injEq] at h
  exact h.1.symm

theorem errPreserving_arrAppend (args : List String) :
    ErrPreserving (doJsonArrAppend args) := by
  intro v v' e h
  cases v with
  | arr xs =>
      simp only [doJsonArrAppend] at h
      cases hp : parseAll args with
      | error e' => rw [hp] at h; exact (Prod.mk.injEq _ _ _ _ ▸ h).1.symm
      | ok items => rw [hp] at h; simp at h
  | null => exact (Prod.mk.injEq _ _ _ _ ▸ h).1.symm
  | bool b => exact (Prod.mk.injEq _ _ _ _ ▸ h).1.symm
  | num n => exact (Prod.mk.injEq _ _ _ _ ▸ h).1.symm
  | str s => exact (Prod.mk.injEq _ _ _ _ ▸ h).1.symm
  | obj xs => exact (Prod.mk.injEq _ _ _ _ ▸ h).1.symm

theorem errPreserving_arrInsert (args : List String) (index : ℤ) :
    ErrPreserving (doJsonArrInsert args index) := by
  intro v v' e h
  cases v with
  | arr xs =>
      simp only [doJsonArrInsert] at h
      by_cases hb : ¬(0 ≤ insertIndex index (xs.length : ℤ) ∧
          insertIndex index (xs.length : ℤ) ≤ (xs.length : ℤ))
      · rw [if_pos hb] at h
        exact (Prod.mk.injEq _ _ _ _ ▸ h).1.symm
      · rw [if_neg hb] at h
        cases hp : parseAll args with
        | error e' => rw [hp] at h; exact (Prod.mk.injEq _ _ _ _ ▸ h).1.symm
        | ok items => rw [hp] at h; simp at h
  | null => exact (Prod.mk.injEq _ _ _ _ ▸ h).1.symm
  | bool b => exact (Prod.mk.injEq _ _ _ _ ▸ h).1.symm
  | num n => exact (Prod.mk.injEq _ _ _ _ ▸ h).1.symm
  | str s => exact (Prod.mk.injEq _ _ _ _ ▸ h).1.symm
  | obj xs => exact (Prod.mk.injEq _ _ _ _ ▸ h).1.symm

theorem errPreserving_arrPop (index : ℤ) :
    ErrPreserving (fun v => (doJsonArrPop index v).2) := by
  intro v v' e h
  cases v with
  | arr xs =>
      simp only [doJsonArrPop] at h
      by_cases hl : xs.length = 0
      · rw [if_pos hl] at h; simp at h
      · rw [if_neg hl] at h; simp at h
  | null => exact (Prod.mk.injEq _ _ _ _ ▸ h).1.symm
  | bool b => exact (Prod.mk.injEq _ _ _ _ ▸ h).1.symm
  | num n => exact (Prod.mk.injEq _ _ _ _ ▸ h).1.symm
  | str s => exact (Prod.mk.injEq _ _ _ _ ▸ h).1.symm
  | obj xs => exact (Prod.mk.injEq _ _ _ _ ▸ h).1.symm

theorem errPreserving_arrTrim (start stop : ℤ) :
    ErrPreserving (doJsonArrTrim start stop) := by
  intro v v' e h
  cases v with
  | arr xs =>
      simp only [doJsonArrTrim] at h
      split at h <;> split at h
      all_goals first
      | (split at h <;> simp at h)
      | simp at h
  | null => exact (Prod.mk.injEq _ _ _ _ ▸ h).1.symm
  | bool b => exact (Prod.mk.injEq _ _ _ _ ▸ h).1.symm
  | num n => exact (Prod.mk.injEq _ _ _ _ ▸ h).1.symm
  | str s => exact (Prod.mk.injEq _ _ _ _ ▸ h).1.symm
  | obj xs => exact (Prod.mk.injEq _ _ _ _ ▸ h).1.symm

/-! ## Claim C1 — array trim -/

/-- The array `[0,1,2,3,4]` of the spec's trim example. -/
def fiveArr : JValue :=
  .arr (JList.ofList [.num (.posInt 0), .num (.posInt 1), .num (.posInt 2),
    .num (.posInt 3), .num (.posInt 4)])

/-- C1 (failing-input evaluation): on `[0,1,2,3,4]`, `trim(start=-1,
stop=0)` normalizes `start` to `4` and `stop` to `0`; the claim (and the
spec) promise an empty array and no error, but the code's empty-range
guard tests the raw `start` (−1), computes the kept range `4..1`, and the
`usize` length `range.end - range.start` underflows, so the call panics
instead of producing the empty array.  The two spec examples evaluate as
promised. -/
theorem c1_trim_panics_on_negative_start :
    doJsonArrTrim (-1) 0 fiveArr = (.null, .panicked) ∧
    (doJsonArrTrim 1 3 fiveArr).2 =
      .ok (.arr (JList.ofList [.num (.posInt 1), .num (.posInt 2),
        .num (.posInt 3)])) ∧
    (doJsonArrTrim 10 20 fiveArr).2 = .ok (.arr .nil) := by
  decide

/-! ## Claim C2 — failure atomicity of every mutating transform -/

/-- C2: every mutating transform (numeric increment/multiply,
string-append, array append/insert/pop/trim, toggle) leaves the located
value untouched whenever it returns an error — each fallible step
precedes the take-and-replace extraction — and therefore a failing
`value_op` returns the document exactly as it was. -/
theorem c2_error_atomicity :
    (∀ opI opF lit, ErrPreserving (readOnly (doJsonNumOp opI opF lit))) ∧
    (∀ lit, ErrPreserving (readOnly (doJsonStrAppend lit))) ∧
    ErrPreserving (readOnly doJsonToggle) ∧
    (∀ args, ErrPreserving (doJsonArrAppend args)) ∧
    (∀ args index, ErrPreserving (doJsonArrInsert args index)) ∧
    (∀ index, ErrPreserving (fun v => (doJsonArrPop index v).2)) ∧
    (∀ start stop, ErrPreserving (doJsonArrTrim start stop)) ∧
    (∀ doc loc t res e, ErrPreserving t →
       valueOp doc loc t = (res, .err e) → res = doc) :=
  ⟨fun opI opF lit => errPreserving_readOnly (doJsonNumOp opI opF lit),
   fun lit => errPreserving_readOnly (doJsonStrAppend lit),
   errPreserving_readOnly doJsonToggle,
   errPreserving_arrAppend,
   errPreserving_arrInsert,
   errPreserving_arrPop,
   errPreserving_arrTrim,
   fun doc loc t res e hp h => valueOp_err_eq doc loc t res e hp h⟩

/-- Witness for C2: `numincrby`-style failure on a string-valued target
leaves the one-key document unchanged. -/
theorem c2_witness :
    (valueOp (.obj (.cons "a" (.str "x") .nil)) [.key "a"]
       (readOnly (doJsonNumOp i64AddOp F64.add "1"))).1 =
      .obj (.cons "a" (.str "x") .nil) :=
  c2_error_atomicity.2.2.2.2.2.2.2
    (.obj (.cons "a" (.str "x") .nil)) [.key "a"]
    (readOnly (doJsonNumOp i64AddOp F64.add "1"))
    (valueOp (.obj (.cons "a" (.str "x") .nil)) [.key "a"]
       (readOnly (doJsonNumOp i64AddOp F64.add "1"))).1
    (.typeMismatch "number" "string")
    (errPreserving_readOnly _) (by decide)

/-! ## Claim C3 — numeric increment/multiply -/

/-- C3 (counterexample to the claim as stated): a literal that does not
parse as JSON at all (`"@"`) makes the operation fail with the propagated
JSON parse error — not a type-mismatch error as the claim says — and a
literal/value pair whose widened floating-point result overflows
(`1e308 * 1e308`) makes the transform panic instead of producing the
floating-point result the claim promises. -/
theorem c3_counterexample :
    doJsonNumOp i64AddOp F64.add "@" (.num (.posInt 1)) = .err .jsonParse ∧
    Error.jsonParse.isTypeMismatch = false ∧
    doJsonNumOp i64MulOp F64.mul "1e308"
      (.num (.float (.fin (Frac.ofInt (ipow 10 308))))) = .panicked := by
  decide

/-- C3 (amended): on a numeric value with a literal parsing as a JSON
number, the result is the integer operator when both operands are
i64-representable, and the floating-point operator on the f64 widenings
otherwise provided that result is finite; a non-numeric value or a
literal parsing to a non-number gives a type-mismatch error, a literal
failing to parse gives a JSON parse error, and on every error the
document is unchanged. -/
theorem c3_num_op_amended (opI : ℤ → ℤ → ℤ) (opF : F64 → F64 → F64)
    (lit : String) (v : JValue) :
    (∀ n m a b, v = .num n → jsonFromStr lit = .ok (.num m) →
       n.asI64 = some a → m.asI64 = some b →
       doJsonNumOp opI opF lit v = .ok (.num (i64ToNumber (opI a b)))) ∧
    (∀ n m q, v = .num n → jsonFromStr lit = .ok (.num m) →
       (n.asI64 = none ∨ m.asI64 = none) →
       opF n.asF64 m.asF64 = .fin q →
       doJsonNumOp opI opF lit v = .ok (.num (.float (.fin q)))) ∧
    ((∀ n, v ≠ .num n) →
       doJsonNumOp opI opF lit v = .err (errJson v "number") ∧
       (errJson v "number").isTypeMismatch = true) ∧
    (∀ n w, v = .num n → jsonFromStr lit = .ok w → (∀ m, w ≠ .num m) →
       doJsonNumOp opI opF lit v = .err (errJson w "number") ∧
       (errJson w "number").isTypeMismatch = true) ∧
    (∀ n e, v = .num n → jsonFromStr lit = .error e →
       doJsonNumOp opI opF lit v = .err e) ∧
    (∀ doc loc res e,
       valueOp doc loc (readOnly (doJsonNumOp opI opF lit)) = (res, .err e) →
       res = doc) := by
  refine ⟨?_, ?_, ?_, ?_, ?_, ?_⟩
  · intro n m a b hv hlit ha hb
    subst hv
    simp [doJsonNumOp, hlit, ha, hb]
  · intro n m q hv hlit hni hq
    subst hv
    rcases hni with hn | hm
    · simp [doJsonNumOp, hlit, hn, hq, JNumber.fromF64]
    · cases hn : n.asI64 <;>
        simp [doJsonNumOp, hlit, hn, hm, hq, JNumber.fromF64]
  · intro hne
    cases v with
    | num n => exact absurd rfl (hne n)
    | null => exact ⟨rfl, rfl⟩
    | bool b => exact ⟨rfl, rfl⟩
    | str s => exact ⟨rfl, rfl⟩
    | arr xs => exact ⟨rfl, rfl⟩
    | obj xs => exact ⟨rfl, rfl⟩
  · intro n w hv hlit hw
    subst hv
    cases w with
    | num m => exact absurd rfl (hw m)
    | null => exact ⟨by simp [doJsonNumOp, hlit], rfl⟩
    | bool b => exact ⟨by simp [doJsonNumOp, hlit], rfl⟩
    | str s => exact ⟨by simp [doJsonNumOp, hlit], rfl⟩
    | arr xs => exact ⟨by simp [doJsonNumOp, hlit], rfl⟩
    | obj xs => exact ⟨by simp [doJsonNumOp, hlit], rfl⟩
  · intro n e hv hlit
    subst hv
    simp [doJsonNumOp, hlit]
  · intro doc loc res e h
    exact valueOp_err_eq doc loc _ res e (errPreserving_readOnly _) h

/-- Witness for C3: `3 + 4` on the integer path and `3 + 0.5` on the
floating-point path. -/
theorem c3_witness :
    doJsonNumOp i64AddOp F64.add "4" (.num (.posInt 3)) =
      .ok (.num (.posInt 7)) ∧
    doJsonNumOp i64AddOp F64.add "0.5" (.num (.posInt 3)) =
      .ok (.num (.float (.fin (Frac.norm 7 2)))) := by
  constructor
  · exact ((c3_num_op_amended i64AddOp F64.add "4" (.num (.posInt 3))).1
      (.posInt 3) (.posInt 4) 3 4 rfl (by decide) (by decide)
      (by decide)).trans (by decide)
  · exact (c3_num_op_amended i64AddOp F64.add "0.5" (.num (.posInt 3))).2.1
      (.posInt 3) (.float (.fin (Frac.norm 1 2))) (Frac.norm 7 2) rfl (by decide)
      (Or.inr (by decide)) (by decide)

/-! ## Claim C4 — array insert -/

/-- C4: a negative insert index is mapped to `len + index`; insertion
proceeds exactly when the mapped index lies in `[0, len]` inclusive, in
which case the items are spliced in at that position with every existing
element preserved in order, and otherwise the operation fails with the
index-out-of-bounds error before any mutation of the array. -/
theorem c4_arr_insert (args : List String) (index : ℤ) (a : JList) :
    (index < 0 → insertIndex index (a.length : ℤ) = (a.length : ℤ) + index) ∧
    (0 ≤ index → insertIndex index (a.length : ℤ) = index) ∧
    (¬(0 ≤ insertIndex index (a.length : ℤ) ∧
        insertIndex index (a.length : ℤ) ≤ (a.length : ℤ)) →
       doJsonArrInsert args index (.arr a) = (.arr a, .err .indexOutOfBounds)) ∧
    (∀ items, 0 ≤ insertIndex index (a.length : ℤ) →
       insertIndex index (a.length : ℤ) ≤ (a.length : ℤ) →
       parseAll args = .ok items →
       doJsonArrInsert args index (.arr a) =
         (.null, .ok (.arr ((a.take (insertIndex index (a.length : ℤ)).toNat).append
           ((JList.ofList items).append
             (a.drop (insertIndex index (a.length : ℤ)).toNat)))))) := by
  refine ⟨?_, ?_, ?_, ?_⟩
  · intro h
    simp [insertIndex, h]
  · intro h
    simp [insertIndex, not_lt.mpr h]
  · intro h
    simp only [doJsonArrInsert]
    rw [if_pos h]
  · intro items h0 h1 hp
    simp only [doJsonArrInsert]
    rw [if_neg (by exact not_not.mpr ⟨h0, h1⟩), hp]

/-- Witness for C4: inserting `9` at index `1` of `[1,2,3]`, and the
out-of-bounds rejections at mapped indices `4` and `-1`. -/
theorem c4_witness :
    doJsonArrInsert ["9"] 1
      (.arr (JList.ofList [.num (.posInt 1), .num (.posInt 2), .num (.posInt 3)])) =
      (.null, .ok (.arr (JList.ofList [.num (.posInt 1), .num (.posInt 9),
        .num (.posInt 2), .num (.posInt 3)]))) ∧
    doJsonArrInsert ["9"] 4
      (.arr (JList.ofList [.num (.posInt 1), .num (.posInt 2), .num (.posInt 3)])) =
      (.arr (JList.ofList [.num (.posInt 1), .num (.posInt 2), .num (.posInt 3)]),
       .err .indexOutOfBounds) ∧
    doJsonArrInsert ["9"] (-4)
      (.arr (JList.ofList [.num (.posInt 1), .num (.posInt 2), .num (.posInt 3)])) =
      (.arr (JList.ofList [.num (.posInt 1), .num (.posInt 2), .num (.posInt 3)]),
       .err .indexOutOfBounds) := by
  refine ⟨?_, ?_, ?_⟩
  · exact ((c4_arr_insert ["9"] 1 _).2.2.2 [.num (.posInt 9)] (by decide)
      (by decide) (by decide)).trans (by decide)
  · exact (c4_arr_insert ["9"] 4 _).2.2.1 (by decide)
  · exact (c4_arr_insert ["9"] (-4) _).2.2.1 (by decide)

/-! ## Claim C5 — array pop -/

theorem JList.length_eq_zero_iff (a : JList) : a.length = 0 ↔ a = .nil := by
  cases a with
  | nil => simp [JList.length]
  | cons hd tl => simp [JList.length]

/-- C5: popping a non-empty array at signed index `i` removes the element
at `max(0, len+i)` for negative `i` and `min(i, len-1)` otherwise,
surfacing it as the out-of-band side payload; popping an empty array
yields no element, no error, and leaves the document unchanged. -/
theorem c5_arr_pop (index : ℤ) (a : JList) :
    (a ≠ .nil →
       doJsonArrPop index (.arr a) =
         (some (a.getD (popIndex index a.length)), .null,
          .ok (.arr (a.eraseIdx (popIndex index a.length))))) ∧
    (doJsonArrPop index (.arr .nil) = (none, .arr .nil, .ok (.arr .nil))) ∧
    (∀ doc loc, getAt doc loc = some (.arr .nil) →
       valueOp doc loc (fun v => (doJsonArrPop index v).2) =
         (doc, .ok (.arr .nil))) := by
  refine ⟨?_, by simp [doJsonArrPop, JList.length], ?_⟩
  · intro hne
    have hl : a.length ≠ 0 := fun h => hne ((JList.length_eq_zero_iff a).mp h)
    simp only [doJsonArrPop]
    rw [if_neg hl]
  · intro doc loc hg
    simp [valueOp, hg, doJsonArrPop, JList.length,
      setAt_getAt loc doc (JValue.arr .nil) hg]

/-- Witness for C5: `pop(-1)` on `[1,2,3]` returns `3` and leaves
`[1,2]`; pop on `[]` returns no element. -/
theorem c5_witness :
    doJsonArrPop (-1)
      (.arr (JList.ofList [.num (.posInt 1), .num (.posInt 2), .num (.posInt 3)])) =
      (some (.num (.posInt 3)), .null,
       .ok (.arr (JList.ofList [.num (.posInt 1), .num (.posInt 2)]))) ∧
    doJsonArrPop 4 (.arr .nil) = (none, .arr .nil, .ok (.arr .nil)) := by
  constructor
  · exact ((c5_arr_pop (-1)
      (JList.ofList [.num (.posInt 1), .num (.posInt 2), .num (.posInt 3)])).1
      (by decide)).trans (by decide)
  · exact (c5_arr_pop 4 .nil).2.1

/-! ## Claim C7 — `JSON.SET` on a key holding no document -/

/-- `SetOptions` (`redisjson.rs`).  Modelled from the spec: §3's
`SetOption — None | RequireExists | RequireNotExists`, with the source's
constructor names (`NX` selects `NotExists`, `XX` selects
`AlreadyExists`). -/
inductive SetOptions where
  | None
  | NotExists
  | AlreadyExists
deriving DecidableEq

/-- The externally visible result of `json_set` on a missing key. -/
inductive SetOutcome where
  | nullReply
  | created (doc : JValue)
  | errored (e : Error)
deriving DecidableEq

/-- The `(None, set_option)` match arms of `json_set` (`lib.rs`, lines
167–191) — the key holds no document.  With `XX`/`AlreadyExists` the
reply is `Null` and nothing is created; otherwise the value is parsed
(`RedisJSON::from_str`, a `serde_json` parse at `Format::JSON` —
`redisjson.rs` is not among the sources, modelled from the spec), and the
document is stored only when the legacy-rewritten path is the root `$`;
any other path yields the "new objects must be created at the root"
error, leaving the key without a document. -/
def jsonSetOnMissingKey (rawPath value : String) (op : SetOptions) :
    SetOutcome :=
  match op with
  | .AlreadyExists => .nullReply
  | _ =>
      match jsonFromStr value with
      | .error e => .errored e
      | .ok doc =>
          if backwardsCompatPath rawPath = "$" then .created doc
          else .errored .rootCreate

/-- C7: on a key with no document, `XX` creates nothing and replies
`Null`; otherwise a document is created exactly when the (rewritten) path
is the root `$` and the value parses, and every non-root path fails with
an error, leaving the key without a document. -/
theorem c7_set_missing_key (raw val : String) (op : SetOptions) :
    (op = .AlreadyExists → jsonSetOnMissingKey raw val op = .nullReply) ∧
    (∀ d, jsonSetOnMissingKey raw val op = .created d →
       backwardsCompatPath raw = "$" ∧ jsonFromStr val = .ok d ∧
       op ≠ .AlreadyExists) ∧
    (op ≠ .AlreadyExists → backwardsCompatPath raw ≠ "$" →
       ∃ e, jsonSetOnMissingKey raw val op = .errored e) ∧
    (op ≠ .AlreadyExists → backwardsCompatPath raw = "$" →
       ∀ d, jsonFromStr val = .ok d →
         jsonSetOnMissingKey raw val op = .created d) := by
  refine ⟨?_, ?_, ?_, ?_⟩
  · intro h
    subst h
    rfl
  · intro d h
    cases op with
    | AlreadyExists => simp [jsonSetOnMissingKey] at h
    | None =>
        simp only [jsonSetOnMissingKey] at h
        split at h
        · simp at h
        · rename_i doc hv
          split at h
          · rename_i hp
            cases h
            exact ⟨hp, hv, by decide⟩
          · simp at h
    | NotExists =>
        simp only [jsonSetOnMissingKey] at h
        split at h
        · simp at h
        · rename_i doc hv
          split at h
          · rename_i hp
            cases h
            exact ⟨hp, hv, by decide⟩
          · simp at h
  · intro hop hp
    cases op with
    | AlreadyExists => exact absurd rfl hop
    | None =>
        cases hv : jsonFromStr val with
        | error e => exact ⟨e, by simp [jsonSetOnMissingKey, hv]⟩
        | ok doc => exact ⟨.rootCreate, by simp [jsonSetOnMissingKey, hv, hp]⟩
    | NotExists =>
        cases hv : jsonFromStr val with
        | error e => exact ⟨e, by simp [jsonSetOnMissingKey, hv]⟩
        | ok doc => exact ⟨.rootCreate, by simp [jsonSetOnMissingKey, hv, hp]⟩
  · intro hop hp d hv
    cases op with
    | AlreadyExists => exact absurd rfl hop
    | None => simp [jsonSetOnMissingKey, hv, hp]
    | NotExists => simp [jsonSetOnMissingKey, hv, hp]

/-- Witness for C7: `XX` on a missing key replies `Null`; a root set
creates the parsed document; a non-root set errors. -/
theorem c7_witness :
    jsonSetOnMissingKey "$" "1" .AlreadyExists = .nullReply ∧
    jsonSetOnMissingKey "$" "1" .None = .created (.num (.posInt 1)) ∧
    (∃ e, jsonSetOnMissingKey "foo" "1" .None = .errored e) := by
  refine ⟨(c7_set_missing_key "$" "1" .AlreadyExists).1 rfl,
    (c7_set_missing_key "$" "1" .None).2.2.2 (by decide) (by decide)
      (.num (.posInt 1)) (by decide),
    (c7_set_missing_key "foo" "1" .None).2.2.1 (by decide) (by decide)⟩

/-! ## Claim C9 — `JSON.GET` argument classification -/

/-- ASCII lower-casing of one character, as in
`str::eq_ignore_ascii_case`. -/
def lowerAscii (c : Char) : Char :=
  if 65 ≤ c.toNat ∧ c.toNat ≤ 90 then Char.ofNat (c.toNat + 32) else c

/-- Rust's `str::eq_ignore_ascii_case`. -/
def eqIgnoreAsciiCase (a b : String) : Bool :=
  decide (a.data.map lowerAscii = b.data.map lowerAscii)

/-- The compile-time `max_strlen` of `lib.rs` (lines 37–52): the longest
length among a list of strings. -/
def maxStrlen (arr : List String) : ℕ :=
  arr.foldl (fun m s => if m < s.length then s.length else m) 0

/-- `JSONGET_SUBCOMMANDS_MAXSTRLEN` (`lib.rs`, lines 56–62). -/
def JSONGET_SUBCOMMANDS_MAXSTRLEN : ℕ :=
  maxStrlen ["NOESCAPE", "INDENT", "NEWLINE", "SPACE", "FORMAT"]

/-- `Format` (`redisjson.rs`).  Modelled from the spec: `Json` is the
default and the only encoding guaranteed; `Format::from_str` accepts its
name and rejects anything else. -/
inductive Format where
  | JSON
deriving DecidableEq

def Format.fromStr (s : String) : Except Error Format :=
  if s = "JSON" then .ok .JSON else .error .wrongFormat

/-- The state accumulated by the `json_get` argument loop. -/
structure GetOpts where
  paths : List String
  indent : String
  newline : String
  space : String
  format : Format
deriving DecidableEq

def initGetOpts : GetOpts := ⟨[], "", "", "", .JSON⟩

/-- The argument loop of `json_get` (`lib.rs`, lines 211–226): an
argument longer than the longest subcommand name is a path; otherwise the
case-insensitive subcommand checks run in source order (`INDENT`,
`NEWLINE`, `SPACE`, `NOESCAPE`, `FORMAT`), the option-valued ones
consuming the following argument; anything else is a path. -/
def processGetArgs : List String → GetOpts → Except Error GetOpts
  | [], acc => .ok acc
  | a :: rest, acc =>
      if a.length > JSONGET_SUBCOMMANDS_MAXSTRLEN then
        processGetArgs rest { acc with paths := acc.paths ++ [a] }
      else if eqIgnoreAsciiCase a "INDENT" then
        match rest with
        | [] => .error .argMissing
        | v :: r => processGetArgs r { acc with indent := v }
      else if eqIgnoreAsciiCase a "NEWLINE" then
        match rest with
        | [] => .error .argMissing
        | v :: r => processGetArgs r { acc with newline := v }
      else if eqIgnoreAsciiCase a "SPACE" then
        match rest with
        | [] => .error .argMissing
        | v :: r => processGetArgs r { acc with space := v }
      else if eqIgnoreAsciiCase a "NOESCAPE" then processGetArgs rest acc
      else if eqIgnoreAsciiCase a "FORMAT" then
        match rest with
        | [] => .error .argMissing
        | v :: r =>
            match Format.fromStr v with
            | .error e => .error e
            | .ok f => processGetArgs r { acc with format := f }
      else processGetArgs rest { acc with paths := acc.paths ++ [a] }

/-- `json_get` after its argument loop (`lib.rs`, lines 229–231): when no
path argument was seen, the root path `$` is used. -/
def jsonGetClassify (args : List String) : Except Error GetOpts :=
  match processGetArgs args initGetOpts with
  | .error e => .error e
  | .ok r => .ok { r with paths := if r.paths.isEmpty then ["$"] else r.paths }

/-- Case-insensitive equality is incompatible with a name whose
lower-casing differs. -/
theorem eqIC_trans_ne (a b c : String) (h1 : eqIgnoreAsciiCase a b = true)
    (h2 : eqIgnoreAsciiCase b c = false) : eqIgnoreAsciiCase a c = false := by
  unfold eqIgnoreAsciiCase at *
  have e1 := of_decide_eq_true h1
  have e2 := of_decide_eq_false h2
  exact decide_eq_false (by rw [e1]; exact e2)

/-- C9: every `JSON.GET` argument longer than 8 characters (the length of
`NOESCAPE`, the longest subcommand name) is unconditionally a path; a
shorter argument case-insensitively equal to `INDENT`, `NEWLINE`, `SPACE`
or `FORMAT` is consumed as that option together with the following
argument, `NOESCAPE` is silently skipped — so such an argument is never
recorded as a path — and when no path argument remains the root path `$`
is used. -/
theorem c9_get_arg_classification :
    JSONGET_SUBCOMMANDS_MAXSTRLEN = 8 ∧
    ("NOESCAPE" : String).length = 8 ∧
    (∀ a rest acc, a.length > 8 →
       processGetArgs (a :: rest) acc =
         processGetArgs rest { acc with paths := acc.paths ++ [a] }) ∧
    (∀ a v rest acc, a.length ≤ 8 → eqIgnoreAsciiCase a "INDENT" = true →
       processGetArgs (a :: v :: rest) acc =
         processGetArgs rest { acc with indent := v }) ∧
    (∀ a v rest acc, a.length ≤ 8 → eqIgnoreAsciiCase a "NEWLINE" = true →
       processGetArgs (a :: v :: rest) acc =
         processGetArgs rest { acc with newline := v }) ∧
    (∀ a v rest acc, a.length ≤ 8 → eqIgnoreAsciiCase a "SPACE" = true →
       processGetArgs (a :: v :: rest) acc =
         processGetArgs rest { acc with space := v }) ∧
    (∀ a rest acc, a.length ≤ 8 → eqIgnoreAsciiCase a "NOESCAPE" = true →
       processGetArgs (a :: rest) acc = processGetArgs rest acc) ∧
    (∀ a v rest acc f, a.length ≤ 8 → eqIgnoreAsciiCase a "FORMAT" = true →
       Format.fromStr v = .ok f →
       processGetArgs (a :: v :: rest) acc =
         processGetArgs rest { acc with format := f }) ∧
    (∀ args r, processGetArgs args initGetOpts = .ok r →
       jsonGetClassify args =
         .ok { r with paths := if r.paths.isEmpty then ["$"] else r.paths }) := by
  have hM : JSONGET_SUBCOMMANDS_MAXSTRLEN = 8 := by decide
  refine ⟨hM, by decide, ?_, ?_, ?_, ?_, ?_, ?_, ?_⟩
  · intro a rest acc h
    conv_lhs => rw [processGetArgs.eq_def]
    simp [hM, h]
  · intro a v rest acc hlen heq
    simp [processGetArgs, hM, Nat.not_lt.mpr hlen, heq]
  · intro a v rest acc hlen heq
    have hI : eqIgnoreAsciiCase a "INDENT" = false :=
      eqIC_trans_ne a "NEWLINE" "INDENT" heq (by decide)
    simp [processGetArgs, hM, Nat.not_lt.mpr hlen, heq, hI]
  · intro a v rest acc hlen heq
    have hI : eqIgnoreAsciiCase a "INDENT" = false :=
      eqIC_trans_ne a "SPACE" "INDENT" heq (by decide)
    have hN : eqIgnoreAsciiCase a "NEWLINE" = false :=
      eqIC_trans_ne a "SPACE" "NEWLINE" heq (by decide)
    simp [processGetArgs, hM, Nat.not_lt.mpr hlen, heq, hI, hN]
  · intro a rest acc hlen heq
    have hI : eqIgnoreAsciiCase a "INDENT" = false :=
      eqIC_trans_ne a "NOESCAPE" "INDENT" heq (by decide)
    have hN : eqIgnoreAsciiCase a "NEWLINE" = false :=
      eqIC_trans_ne a "NOESCAPE" "NEWLINE" heq (by decide)
    have hS : eqIgnoreAsciiCase a "SPACE" = false :=
      eqIC_trans_ne a "NOESCAPE" "SPACE" heq (by decide)
    conv_lhs => rw [processGetArgs.eq_def]
    simp [hM, Nat.not_lt.mpr hlen, heq, hI, hN, hS]
  · intro a v rest acc f hlen heq hf
    have hI : eqIgnoreAsciiCase a "INDENT" = false :=
      eqIC_trans_ne a "FORMAT" "INDENT" heq (by decide)
    have hN : eqIgnoreAsciiCase a "NEWLINE" = false :=
      eqIC_trans_ne a "FORMAT" "NEWLINE" heq (by decide)
    have hS : eqIgnoreAsciiCase a "SPACE" = false :=
      eqIC_trans_ne a "FORMAT" "SPACE" heq (by decide)
    have hE : eqIgnoreAsciiCase a "NOESCAPE" = false :=
      eqIC_trans_ne a "FORMAT" "NOESCAPE" heq (by decide)
    simp [processGetArgs, hM, Nat.not_lt.mpr hlen, heq, hI, hN, hS, hE, hf]
  · intro args r h
    simp [jsonGetClassify, h]

/-- Witness for C9: a mixed argument list — `indent` consumed with its
value, `NOESCAPE` skipped, a long argument and a short unknown one
recorded as paths — and the empty list defaulting to `$`. -/
theorem c9_witness :
    processGetArgs ["indent", "  ", "NOESCAPE", "averylongargument", "x"]
      initGetOpts =
      .ok { initGetOpts with indent := "  ", paths := ["averylongargument", "x"] } ∧
    jsonGetClassify [] = .ok { initGetOpts with paths := ["$"] } := by
  constructor
  · rw [c9_get_arg_classification.2.2.2.1 "indent" "  "
      ["NOESCAPE", "averylongargument", "x"] initGetOpts (by decide) (by decide)]
    decide
  · rw [c9_get_arg_classification.2.2.2.2.2.2.2.2 [] initGetOpts (by decide)]
    decide

/-! ## Claim C10 — reachable panic in the arithmetic transform -/

/-- C10: the `Number::from_f64(..).unwrap()` in `do_json_num_op` is
reachable — `JSON.NUMMULTBY` of `1e308` by `1e308` panics — and it is the
only panic site: a panic requires a numeric target, a numeric literal,
at least one operand outside `i64`, and a non-finite widened
floating-point result. -/
theorem c10_num_op_panic :
    doJsonNumOp i64MulOp F64.mul "1e308"
      (.num (.float (.fin (Frac.ofInt (ipow 10 308))))) = .panicked ∧
    (∀ opI opF lit v, doJsonNumOp opI opF lit v = .panicked →
       ∃ n m, v = .num n ∧ jsonFromStr lit = .ok (.num m) ∧
         (n.asI64 = none ∨ m.asI64 = none) ∧
         JNumber.fromF64 (opF n.asF64 m.asF64) = none) := by
  constructor
  · decide
  · intro opI opF lit v h
    cases v with
    | num n =>
        simp only [doJsonNumOp] at h
        split at h
        · simp at h
        · rename_i m hlit
          split at h
          · simp at h
          · rename_i hboth
            split at h
            · simp at h
            · rename_i hf
              refine ⟨n, m, rfl, hlit, ?_, hf⟩
              cases hn : n.asI64 with
              | none => exact Or.inl rfl
              | some a =>
                  cases hm : m.asI64 with
                  | none => exact Or.inr rfl
                  | some b => exact (hboth a b hn hm).elim
        · simp at h
    | null => simp [doJsonNumOp] at h
    | bool b => simp [doJsonNumOp] at h
    | str s => simp [doJsonNumOp] at h
    | arr xs => simp [doJsonNumOp] at h
    | obj xs => simp [doJsonNumOp] at h

/-- Witness for C10: the panic preconditions extracted at the concrete
`1e308 * 1e308` input. -/
theorem c10_witness :
    ∃ n m, JValue.num (.float (.fin (Frac.ofInt (ipow 10 308)))) = .num n ∧
      jsonFromStr "1e308" = .ok (.num m) ∧
      (n.asI64 = none ∨ m.asI64 = none) ∧
      JNumber.fromF64 (F64.mul n.asF64 m.asF64) = none :=
  c10_num_op_panic.2 i64MulOp F64.mul "1e308"
    (.num (.float (.fin (Frac.ofInt (ipow 10 308))))) c10_num_op_panic.1

/-! ## Claim C8 — the formatter (`formatter.rs`)

`RedisJsonFormatter` implements `serde_json::ser::Formatter`; the value
renderer below drives its callbacks in the order `serde_json`'s
serializer does (modelled from the dependency's documented contract):
arrays are `begin_array`, then per element `begin_array_value(first)`,
the element, `end_array_value`, then `end_array`; objects are
`begin_object`, then per member `begin_object_key(first)`, the quoted
key, `begin_object_value`, the value, `end_object_value`, then
`end_object`.  Scalars and string contents use the trait's default
methods, which insert no whitespace (the float text is a placeholder —
no claim inspects it). -/

/-- The three whitespace options of `RedisJsonFormatter::new`. -/
structure FmtConfig where
  indent : Option String
  space : Option String
  newline : Option String

/-- The formatter's mutable state: `current_indent` and `has_value`. -/
structure FmtState where
  currentIndent : ℕ
  hasValue : Bool

def repeatStr (s : String) : ℕ → String
  | 0 => ""
  | n + 1 => s ++ repeatStr s n

/-- `RedisJsonFormatter::new_line` (`formatter.rs`, lines 51–69): the
newline string if configured, then the indent string repeated
`current_indent` times if configured. -/
def newLineOf (cfg : FmtConfig) (ci : ℕ) : String :=
  (match cfg.newline with | none => "" | some n => n) ++
  (match cfg.indent with | none => "" | some s => repeatStr s ci)

def lbraceStr : String := String.mk [lbraceCh]

def rbraceStr : String := String.mk [rbraceCh]

def hexDigitCh (n : ℕ) : Char :=
  if n < 10 then Char.ofNat (48 + n) else Char.ofNat (87 + (n - 10))

/-- JSON string escaping (`serde_json`'s default `Formatter` methods). -/
def escapeChar (c : Char) : List Char :=
  if c = '"' then ['\\', '"']
  else if c = '\\' then ['\\', '\\']
  else if c.toNat < 32 then
    if c.toNat = 8 then ['\\', 'b']
    else if c.toNat = 9 then ['\\', 't']
    else if c.toNat = 10 then ['\\', 'n']
    else if c.toNat = 12 then ['\\', 'f']
    else if c.toNat = 13 then ['\\', 'r']
    else ['\\', 'u', '0', '0', hexDigitCh (c.toNat / 16), hexDigitCh (c.toNat % 16)]
  else [c]

def escapeStr (s : String) : String :=
  String.mk (s.data.foldr (fun c acc => escapeChar c ++ acc) [])

def strText (s : String) : String := "\"" ++ escapeStr s ++ "\""

def numText : JNumber → String
  | .posInt n => toString n
  | .negInt i => toString i
  | .float (.fin q) =>
      if q.den = 1 then toString q.num ++ ".0"
      else toString q.num ++ "div" ++ toString q.den
  | .float _ => "nonfinite"

def JList.isNil : JList → Bool
  | .nil => true
  | .cons _ _ => false

def JObj.isNil : JObj → Bool
  | .nil => true
  | .cons _ _ _ => false

mutual
/-- Render a value through the formatter callbacks, threading the
formatter state; returns the written text and the state after the
call. -/
def renderV (cfg : FmtConfig) (st : FmtState) : JValue → String × FmtState
  | .null => ("null", st)
  | .bool b => (if b then "true" else "false", st)
  | .num n => (numText n, st)
  | .str s => (strText s, st)
  | .arr xs =>
      let stIn : FmtState := ⟨st.currentIndent + 1, false⟩
      let p := renderElems cfg stIn true xs
      let ciOut := p.2.currentIndent - 1
      ("[" ++ p.1 ++ (if p.2.hasValue then newLineOf cfg ciOut else "") ++ "]",
       ⟨ciOut, p.2.hasValue⟩)
  | .obj xs =>
      let stIn : FmtState := ⟨st.currentIndent + 1, false⟩
      let p := renderMembers cfg stIn true xs
      let ciOut := p.2.currentIndent - 1
      (lbraceStr ++ p.1 ++ (if p.2.hasValue then newLineOf cfg ciOut else "")
        ++ rbraceStr,
       ⟨ciOut, p.2.hasValue⟩)

def renderElems (cfg : FmtConfig) (st : FmtState) (first : Bool) :
    JList → String × FmtState
  | .nil => ("", st)
  | .cons x xs =>
      let pre := (if first then "" else ",") ++ newLineOf cfg st.currentIndent
      let p := renderV cfg st x
      let st2 : FmtState := ⟨p.2.currentIndent, true⟩
      let q := renderElems cfg st2 false xs
      (pre ++ p.1 ++ q.1, q.2)

def renderMembers (cfg : FmtConfig) (st : FmtState) (first : Bool) :
    JObj → String × FmtState
  | .nil => ("", st)
  | .cons k v xs =>
      let pre := (if first then "" else ",") ++ newLineOf cfg st.currentIndent
      let keyPart := strText k ++ ":" ++
        (match cfg.space with | none => "" | some s => s)
      let p := renderV cfg st v
      let st2 : FmtState := ⟨p.2.currentIndent, true⟩
      let q := renderMembers cfg st2 false xs
      (pre ++ keyPart ++ p.1 ++ q.1, q.2)
end

mutual
/-- The layout the claim describes, computed directly: the whole text of
a value at nesting depth `d` — each element after the first preceded by a
comma then the newline+indent sequence, the newline+indent before a
closing bracket present exactly when the container is non-empty, object
values preceded by a colon and the configured space. -/
def renderSpec (cfg : FmtConfig) (d : ℕ) : JValue → String
  | .null => "null"
  | .bool b => if b then "true" else "false"
  | .num n => numText n
  | .str s => strText s
  | .arr xs =>
      "[" ++ specElems cfg (d + 1) true xs ++
        (if xs.isNil then "" else newLineOf cfg d) ++ "]"
  | .obj xs =>
      lbraceStr ++ specMembers cfg (d + 1) true xs ++
        (if xs.isNil then "" else newLineOf cfg d) ++ rbraceStr

def specElems (cfg : FmtConfig) (d : ℕ) (first : Bool) : JList → String
  | .nil => ""
  | .cons x xs =>
      (if first then "" else ",") ++ newLineOf cfg d ++ renderSpec cfg d x ++
        specElems cfg d false xs

def specMembers (cfg : FmtConfig) (d : ℕ) (first : Bool) : JObj → String
  | .nil => ""
  | .cons k v xs =>
      (if first then "" else ",") ++ newLineOf cfg d ++ strText k ++ ":" ++
        (match cfg.space with | none => "" | some s => s) ++
        renderSpec cfg d v ++ specMembers cfg d false xs
end

mutual
/-- Compact serialization: no inserted whitespace anywhere. -/
def compact : JValue → String
  | .null => "null"
  | .bool b => if b then "true" else "false"
  | .num n => numText n
  | .str s => strText s
  | .arr xs => "[" ++ compactElems true xs ++ "]"
  | .obj xs => lbraceStr ++ compactMembers true xs ++ rbraceStr

def compactElems (first : Bool) : JList → String
  | .nil => ""
  | .cons x xs => (if first then "" else ",") ++ compact x ++ compactElems false xs

def compactMembers (first : Bool) : JObj → String
  | .nil => ""
  | .cons k v xs =>
      (if first then "" else ",") ++ strText k ++ ":" ++ compact v ++
        compactMembers false xs
end

/-- The `has_value` flag after rendering one value: scalars leave it
alone; a container leaves it set exactly when it had at least one
child. -/
def hvAfter : JValue → Bool → Bool
  | .arr xs, _ => !xs.isNil
  | .obj xs, _ => !xs.isNil
  | _, hv => hv

/-- Statement of the formatter refinement for one value. -/
def RVspec (v : JValue) : Prop :=
  ∀ cfg d hv, renderV cfg ⟨d, hv⟩ v = (renderSpec cfg d v, ⟨d, hvAfter v hv⟩)

/-- Statement of the formatter refinement for array bodies. -/
def RLspec (xs : JList) : Prop :=
  ∀ cfg d hv first, renderElems cfg ⟨d, hv⟩ first xs =
    (specElems cfg d first xs, ⟨d, if xs.isNil then hv else true⟩)

/-- Statement of the formatter refinement for object bodies. -/
def ROspec (xs : JObj) : Prop :=
  ∀ cfg d hv first, renderMembers cfg ⟨d, hv⟩ first xs =
    (specMembers cfg d first xs, ⟨d, if xs.isNil then hv else true⟩)

theorem rv_null : RVspec .null := by
  intro cfg d hv
  simp [renderV, renderSpec, hvAfter]

theorem rv_bool (b : Bool) : RVspec (.bool b) := by
  intro cfg d hv
  simp [renderV, renderSpec, hvAfter]

theorem rv_num (n : JNumber) : RVspec (.num n) := by
  intro cfg d hv
  simp [renderV, renderSpec, hvAfter]

theorem rv_str (s : String) : RVspec (.str s) := by
  intro cfg d hv
  simp [renderV, renderSpec, hvAfter]

theorem rv_arr (xs : JList) (ih : RLspec xs) : RVspec (.arr xs) := by
  intro cfg d hv
  have h := ih cfg (d + 1) false true
  cases xs with
  | nil => simp [renderV, h, renderSpec, hvAfter, JList.isNil]
  | cons y ys => simp [renderV, h, renderSpec, hvAfter, JList.isNil]

theorem rv_obj (xs : JObj) (ih : ROspec xs) : RVspec (.obj xs) := by
  intro cfg d hv
  have h := ih cfg (d + 1) false true
  cases xs with
  | nil => simp [renderV, h, renderSpec, hvAfter, JObj.isNil]
  | cons k y ys => simp [renderV, h, renderSpec, hvAfter, JObj.isNil]

theorem rl_nil : RLspec .nil := by
  intro cfg d hv first
  simp [renderElems, specElems, JList.isNil]

theorem rl_cons (hd : JValue) (tl : JList) (ih1 : RVspec hd)
    (ih2 : RLspec tl) : RLspec (.cons hd tl) := by
  intro cfg d hv first
  have h1 := ih1 cfg d hv
  have h2 := ih2 cfg d true false
  simp [renderElems, h1, h2, specElems, JList.isNil, ite_self]

theorem ro_nil : ROspec .nil := by
  intro cfg d hv first
  simp [renderMembers, specMembers, JObj.isNil]

theorem ro_cons (k : String) (v : JValue) (tl : JObj) (ih1 : RVspec v)
    (ih2 : ROspec tl) : ROspec (.cons k v tl) := by
  intro cfg d hv first
  have h1 := ih1 cfg d hv
  have h2 := ih2 cfg d true false
  simp [renderMembers, h1, h2, specMembers, JObj.isNil, ite_self,
    String.append_assoc]

theorem renderV_spec_all : ∀ v, RVspec v :=
  @JValue.rec RVspec RLspec ROspec rv_null rv_bool rv_num rv_str rv_arr
    rv_obj rl_nil rl_cons ro_nil ro_cons

theorem renderV_spec (cfg : FmtConfig) (d : ℕ) (hv : Bool) (v : JValue) :
    renderV cfg ⟨d, hv⟩ v = (renderSpec cfg d v, ⟨d, hvAfter v hv⟩) :=
  renderV_spec_all v cfg d hv

/-- With all three options absent, the newline+indent sequence is
empty. -/
theorem newLineOf_none (d : ℕ) : newLineOf ⟨none, none, none⟩ d = "" := rfl

/-- Compact-mode statement for one value. -/
def CVspec (v : JValue) : Prop :=
  ∀ d, renderSpec ⟨none, none, none⟩ d v = compact v

/-- Compact-mode statement for array bodies. -/
def CLspec (xs : JList) : Prop :=
  ∀ d first, specElems ⟨none, none, none⟩ d first xs = compactElems first xs

/-- Compact-mode statement for object bodies. -/
def COspec (xs : JObj) : Prop :=
  ∀ d first, specMembers ⟨none, none, none⟩ d first xs = compactMembers first xs

theorem cv_null : CVspec .null := by
  intro d
  simp [renderSpec, compact]

theorem cv_bool (b : Bool) : CVspec (.bool b) := by
  intro d
  simp [renderSpec, compact]

theorem cv_num (n : JNumber) : CVspec (.num n) := by
  intro d
  simp [renderSpec, compact]

theorem cv_str (s : String) : CVspec (.str s) := by
  intro d
  simp [renderSpec, compact]

theorem cv_arr (xs : JList) (ih : CLspec xs) : CVspec (.arr xs) := by
  intro d
  have h := ih (d + 1) true
  cases xs with
  | nil => simp [renderSpec, compact, h, JList.isNil]
  | cons y ys => simp [renderSpec, compact, h, JList.isNil, newLineOf_none]

theorem cv_obj (xs : JObj) (ih : COspec xs) : CVspec (.obj xs) := by
  intro d
  have h := ih (d + 1) true
  cases xs with
  | nil => simp [renderSpec, compact, h, JObj.isNil]
  | cons k y ys => simp [renderSpec, compact, h, JObj.isNil, newLineOf_none]

theorem cl_nil : CLspec .nil := by
  intro d first
  simp [specElems, compactElems]

theorem cl_cons (hd : JValue) (tl : JList) (ih1 : CVspec hd)
    (ih2 : CLspec tl) : CLspec (.cons hd tl) := by
  intro d first
  simp [specElems, compactElems, ih1 d, ih2 d false, newLineOf_none]

theorem co_nil : COspec .nil := by
  intro d first
  simp [specMembers, compactMembers]

theorem co_cons (k : String) (v : JValue) (tl : JObj) (ih1 : CVspec v)
    (ih2 : COspec tl) : COspec (.cons k v tl) := by
  intro d first
  simp [specMembers, compactMembers, ih1 d, ih2 d false, newLineOf_none]

theorem renderSpec_compact_all : ∀ v, CVspec v :=
  @JValue.rec CVspec CLspec COspec cv_null cv_bool cv_num cv_str cv_arr
    cv_obj cl_nil cl_cons co_nil co_cons

theorem renderSpec_compact (d : ℕ) (v : JValue) :
    renderSpec ⟨none, none, none⟩ d v = compact v :=
  renderSpec_compact_all v d

/-- C8: the formatter emits exactly the layout the spec describes (comma
then newline+indent before every element after the first, the
newline+indent before a closing bracket exactly when a child was
emitted); with indent, space and newline all absent the output is the
compact serialization with no inserted whitespace; and under every
configuration and in every state an empty array or object renders as
`[]` / `{}` with no interior whitespace. -/
theorem c8_formatter :
    (∀ cfg d hv v, (renderV cfg ⟨d, hv⟩ v).1 = renderSpec cfg d v) ∧
    (∀ d hv v, (renderV ⟨none, none, none⟩ ⟨d, hv⟩ v).1 = compact v) ∧
    (∀ cfg st, (renderV cfg st (.arr .nil)).1 = "[]") ∧
    (∀ cfg st, (renderV cfg st (.obj .nil)).1 = "\x7b\x7d") := by
  refine ⟨?_, ?_, ?_, ?_⟩
  · intro cfg d hv v
    rw [renderV_spec]
  · intro d hv v
    rw [renderV_spec, renderSpec_compact]
  · intro cfg st
    cases st with
    | mk d hv =>
        rw [renderV_spec]
        simp [renderSpec, specElems, JList.isNil]
        try decide
  · intro cfg st
    cases st with
    | mk d hv =>
        rw [renderV_spec]
        simp [renderSpec, specMembers, JObj.isNil]
        try decide

end RedisJSONModel
